import Mathlib

/-!
Verification of the local file-discovery engine (`kue_find.py`) and the
streaming response decoder (`kue_task.py`) of the BuntingLabs Kue QGIS
plugin, shallowly embedded in Lean.

Modelling conventions:
* Python floats are modelled as rationals (`ℚ`); Python ints as `Int`/`Nat`.
* Python strings are Lean `String`; `str.lower` is modelled character-wise
  (`pyLower`), which agrees with Python on ASCII input.
* External capabilities (GDAL/OGR readers, the filesystem walk, Qt signals)
  are abstracted into explicit data (`FileSpec` flags describing whether each
  external call succeeds and what it returns); the control flow around them is
  translated line by line from the source.
* Fallible parsing returns `Option`; recursion that Python expresses with
  `while` loops is expressed with explicit fuel that is always sufficient for
  the inputs considered.
-/

namespace Kue

/-! ## Trigram similarity (`kue_find.py`, `get_trigrams` / `score_filename`) -/

/-- Models Python `str.lower` character-wise (exact on ASCII input). -/
def pyLower (s : String) : String :=
  String.mk (s.toList.map Char.toLower)

/-- `get_trigrams` from `kue_find.py` lines 96-99:
`text = text.lower()`;
`return {text[i : i + 3] for i in range(len(text) - 2)} if len(text) > 2 else {text}`. -/
def get_trigrams (text : String) : Finset String :=
  let t := (pyLower text).toList
  if 2 < t.length then
    ((List.range (t.length - 2)).map (fun i => String.mk ((t.drop i).take 3))).toFinset
  else
    {String.mk t}

/-- The sort key of `KueFind.search.score_filename` (`kue_find.py` lines 410-416):
`return -intersection / union if union > 0 else 0`, over the cardinalities of
the trigram-set intersection and union. -/
def score_filename (queryTrigrams fileTrigrams : Finset String) : ℚ :=
  let intersection := (queryTrigrams ∩ fileTrigrams).card
  let union := (queryTrigrams ∪ fileTrigrams).card
  if 0 < union then -((intersection : ℚ) / (union : ℚ)) else 0

/-- The similarity the spec speaks about: the (positive) Jaccard score the code
ranks by, i.e. the negation of the sort key `score_filename`. -/
def similarity (query candidate : String) : ℚ :=
  -(score_filename (get_trigrams query) (get_trigrams candidate))

/-- Models Python `c.isspace()`-style whitespace recognized by `str.split()`. -/
def isPyWs (c : Char) : Bool :=
  c = ' ' || c = '\t' || c = '\n' || c = '\r' || c = '\x0b' || c = '\x0c'

/-- Accumulator for `pyWords` (Python `str.split()` with no argument:
split on runs of whitespace, dropping empty pieces). -/
def splitWsAux : List Char → List Char → List (List Char) → List (List Char)
  | [], cur, acc => if cur = [] then acc else acc ++ [cur.reverse]
  | c :: rest, cur, acc =>
    if isPyWs c then
      if cur = [] then splitWsAux rest [] acc
      else splitWsAux rest [] (acc ++ [cur.reverse])
    else splitWsAux rest (c :: cur) acc

/-- Python `s.split()` (no separator argument). -/
def pyWords (s : String) : List String :=
  (splitWsAux s.toList [] []).map String.mk

/-- The query trigram set used by `KueFind.search`:
`query_words = query.lower().split()` and then
`get_trigrams(" ".join(query_words))`. -/
def queryTrigrams (q : String) : Finset String :=
  get_trigrams (String.intercalate " " (pyWords (pyLower q)))

/-! ## Stable sorting (Python builtin `sorted(xs, key=...)`) -/

/-- One insertion step of a stable insertion sort: the new element `x` goes
after every already-placed element whose key is `≤ key x`.  Used to model the
output of Python's builtin `sorted`, which is a stable sort; every stable
sort produces this same output list. -/
def pyInsert (key : α → ℚ) (x : α) : List α → List α
  | [] => [x]
  | y :: ys => if key y ≤ key x then y :: pyInsert key x ys else x :: y :: ys

/-- Models Python `sorted(l, key=key)` (ascending by key, stable). -/
def pySorted (key : α → ℚ) (l : List α) : List α :=
  l.foldl (fun acc x => pyInsert key x acc) []

/-! ## File records and the per-file indexing logic (`IndexingTask.run`) -/

/-- One record of `IndexingTask.files` / `KueFind.files`
(the dict appended at `kue_find.py` lines 180-189 and 346-355).
`ftype` models the `"type"` key. -/
structure FileRecord where
  path : String
  last_accessed : Int
  last_modified : Int
  ftype : Option String
  geometry_type : Option String
  bbox : Option (ℚ × ℚ × ℚ × ℚ)
deriving DecidableEq

/-- Abstraction of one file encountered by the walk together with the outcome
of every external (GDAL/OGR/QGIS) call the indexing code makes on it:

* `isVector`: the filename matches `VECTOR_EXTENSIONS` (else `RASTER_EXTENSIONS`);
* `openOk`: `ogr.Open` (vector) or `gdal.Open` (raster) returns a usable handle;
* `geomTypeName`: `ogr.GeometryTypeToName(layer.GetGeomType())`;
* `srsReadOk`: the vector `try` block up to the `isValid()` test does not raise
  (e.g. `layer.GetSpatialRef()` is not `None`);
* `crsValid`: `QgsCoordinateReferenceSystem(...).isValid()`;
* `rawExtent`: for vectors, `layer.GetExtent()` verbatim, i.e. in GDAL's
  `(minx, maxx, miny, maxy)` order; for rasters, the native bbox computed from
  the geotransform, in `(minx, miny, maxx, maxy)` order;
* `transformAvailable`: `isinstance(transform, osr.CoordinateTransformation)`;
* `transformOk`: `point.Transform(...)` does not raise;
* `transformed`: the reprojected `(minx, miny, maxx, maxy)` bbox;
* `hasGeotransform`: the raster geotransform is truthy. -/
structure FileSpec where
  path : String
  atime : Int
  mtime : Int
  isVector : Bool
  openOk : Bool
  geomTypeName : String
  srsReadOk : Bool
  crsValid : Bool
  rawExtent : ℚ × ℚ × ℚ × ℚ
  transformAvailable : Bool
  transformOk : Bool
  transformed : ℚ × ℚ × ℚ × ℚ
  hasGeotransform : Bool
deriving DecidableEq

/-- Vector branch of `IndexingTask.run` (`kue_find.py` lines 193-263).
`none` means the file is skipped (`continue`), i.e. it never reaches the
`self.files.append` at line 346. -/
def processVectorFile (f : FileSpec) : Option FileRecord :=
  if f.openOk = false then
    none
  else if f.srsReadOk = false then
    some ⟨f.path, f.atime, f.mtime, some "vector", some f.geomTypeName, none⟩
  else if f.crsValid = false then
    some ⟨f.path, f.atime, f.mtime, some "vector", some f.geomTypeName, some f.rawExtent⟩
  else if f.transformAvailable = false then
    none
  else if f.transformOk = false then
    some ⟨f.path, f.atime, f.mtime, some "vector", some f.geomTypeName, none⟩
  else
    some ⟨f.path, f.atime, f.mtime, some "vector", some f.geomTypeName, some f.transformed⟩

/-- Raster branch of `IndexingTask.run` (`kue_find.py` lines 264-323).
Rasters are always appended; only the bbox outcome varies. -/
def processRasterFile (f : FileSpec) : Option FileRecord :=
  some ⟨f.path, f.atime, f.mtime, some "raster", none,
    if f.openOk = false then none
    else if f.hasGeotransform = false then none
    else if f.crsValid = false then some f.rawExtent
    else if f.transformOk = false then none
    else some f.transformed⟩

/-- Fresh (cache-miss) processing of one file. -/
def processFile (f : FileSpec) : Option FileRecord :=
  if f.isVector then processVectorFile f else processRasterFile f

/-- The whole fresh walk over `files_to_index`: each appended record is paired
with the trigram-cache assignment
`self.filename_trigrams[full_path] = get_trigrams(full_path)`
(`kue_find.py` lines 190 and 356 — note: trigrams of the full path). -/
def processFiles : List FileSpec → List (FileRecord × (String × Finset String))
  | [] => []
  | f :: rest =>
    match processFile f with
    | none => processFiles rest
    | some r => (r, (f.path, get_trigrams f.path)) :: processFiles rest

/-! ## Persistent cache (`kue_find.py` sqlite rows, lines 157-191 and 325-344) -/

/-- A row of the `files` table as written by line 326-344: a non-null bbox and
the nullable `geometry_type` code (`FindType` values 1..4). The row is keyed by
`hash_file_path(full_path)`, a deterministic digest of the path; the key is
modelled by the path itself. -/
structure CacheRow where
  bbox : ℚ × ℚ × ℚ × ℚ
  geomCode : Option Nat
deriving DecidableEq

/-- The `geometry_type` code stored on a cache write (`kue_find.py` lines 334-342). -/
def geomCode (ftype geometry_type : Option String) : Option Nat :=
  if ftype = some "raster" then some 1
  else if geometry_type = some "Point" then some 2
  else if geometry_type = some "Line String" then some 3
  else if geometry_type = some "Polygon" then some 4
  else none

/-- The cache write performed after fresh processing: only executed when the
file was appended and its bbox is not `None` (`kue_find.py` line 325). -/
def cacheWriteOf (f : FileSpec) : Option (String × CacheRow) :=
  match processFile f with
  | some r =>
    match r.bbox with
    | some b => some (f.path, ⟨b, geomCode r.ftype r.geometry_type⟩)
    | none => none
  | none => none

/-- The record built on a cache hit (`kue_find.py` lines 164-191):
`find_type = FindType(row[4]) if row[4] is not None else None`;
`file_type = "raster" if find_type == FindType.FIND_RASTER else "vector" if find_type else None`;
`geom_type = {POINT: "point", LINE: "line", POLYGON: "polygon"}.get(find_type)`. -/
def cacheHitRecord (f : FileSpec) (row : CacheRow) : FileRecord :=
  { path := f.path
    last_accessed := f.atime
    last_modified := f.mtime
    ftype :=
      if row.geomCode = some 1 then some "raster"
      else if row.geomCode.isSome then some "vector"
      else none
    geometry_type :=
      if row.geomCode = some 2 then some "point"
      else if row.geomCode = some 3 then some "line"
      else if row.geomCode = some 4 then some "polygon"
      else none
    bbox := some row.bbox }

/-- Cache lookup by file identity (identity modelled by the path, since
`hash_file_path` is a deterministic function of the path). -/
def lookupCache : List (String × CacheRow) → String → Option CacheRow
  | [], _ => none
  | (k, v) :: rest, p => if k = p then some v else lookupCache rest p

/-- Processing of one file on a later run with a warm cache
(`kue_find.py` lines 157-191): on a hit the record is rebuilt from the row and
the extractor is never touched; on a miss the fresh path runs.  The boolean
reports whether the extractor (`ogr.Open`/`gdal.Open` and friends) was invoked. -/
def processFileCached (cache : List (String × CacheRow)) (f : FileSpec) :
    Option FileRecord × Bool :=
  match lookupCache cache f.path with
  | some row => (some (cacheHitRecord f row), false)
  | none => (processFile f, true)

/-! ## The `KueFind` search-index state machine (`kue_find.py` lines 376-428) -/

/-- The mutable state of an `IndexingTask`: the list of files the walk will
visit, in order. -/
structure IndexTaskModel where
  toProcess : List FileSpec
deriving DecidableEq

/-- The mutable state of a `KueFind` instance: the served file list, the
served trigram cache (a dict modelled as an association list; every key is
bound to `get_trigrams key`, so first- vs last-binding lookup agree), and the
in-flight indexing task, if any. -/
structure KueFindModel where
  files : List FileRecord
  filename_trigrams : List (String × Finset String)
  index_task : Option IndexTaskModel

/-- `KueFind.__init__`: empty index, no task. -/
def initKueFind : KueFindModel := ⟨[], [], none⟩

/-- Trigram-dict lookup (`self.filename_trigrams[file_info["path"]]`);
missing keys are given the empty set (in Python a missing key raises, but in
every reachable state each served file path is bound). -/
def lookupTri : List (String × Finset String) → String → Finset String
  | [], _ => ∅
  | (k, v) :: rest, p => if k = p then v else lookupTri rest p

/-- The sort key `score_filename(file_info)` of `KueFind.search`. -/
def rankKey (tri : List (String × Finset String)) (q : String) (f : FileRecord) : ℚ :=
  score_filename (queryTrigrams q) (lookupTri tri f.path)

/-- The positive similarity score a file is ranked by (negation of the key). -/
def simScore (tri : List (String × Finset String)) (q : String) (f : FileRecord) : ℚ :=
  -(rankKey tri q f)

/-- The ranking pipeline of `KueFind.search` (line 418):
`results = sorted(self.files, key=score_filename)[:n]`. The subsequent list
comprehension maps each record to its display tuple one-for-one, preserving
order, so the record list is what we reason about. -/
def rank (st : KueFindModel) (q : String) (n : Nat) : List FileRecord :=
  (pySorted (rankKey st.filename_trigrams q) st.files).take n

/-- `task_completed` (`kue_find.py` lines 390-394): publish the task's lists
when `exception is None`, and clear `self.index_task`.  Both Qt signals
(`taskCompleted` and `taskTerminated`) invoke it with no arguments, so the
`exception` argument is always its default `None`. -/
def task_completed (st : KueFindModel) (exception : Option String)
    (res : List (FileRecord × (String × Finset String))) : KueFindModel :=
  if exception = none then
    ⟨res.map Prod.fst, res.map Prod.snd, none⟩
  else
    { st with index_task := none }

/-- The `taskCompleted` signal after a full walk: the task ran to the end of
its file list and `task_completed` is invoked with default arguments. -/
def completeStep (st : KueFindModel) : KueFindModel :=
  match st.index_task with
  | none => st
  | some t => task_completed st none (processFiles t.toProcess)

/-- The `taskTerminated` signal after a cancellation: `IndexingTask.run`
observed `isCanceled()` having processed only the first `k` files (lines
146-150), returned `False`, and `task_completed` is invoked — again with its
default `exception=None`. -/
def terminateStep (st : KueFindModel) (k : Nat) : KueFindModel :=
  match st.index_task with
  | none => st
  | some t => task_completed st none (processFiles (t.toProcess.take k))

/-- `KueFind.search` (`kue_find.py` lines 402-418), parameterized by `fs`, the
file list a freshly started walk would visit (the enumeration of the user's
home directory).  Returns the ranked records and the successor state. -/
def searchStep (fs : List FileSpec) (st : KueFindModel) (q : String)
    (n : Nat := 12) : List FileRecord × KueFindModel :=
  match st.filename_trigrams, st.index_task with
  | [], none => ([], { st with index_task := some ⟨fs⟩ })
  | _, _ => (rank st q n, st)

/-- States of a `KueFind` instance reachable through its public surface:
construction, searches, and the two task-end signals. -/
inductive Reach (fs : List FileSpec) : KueFindModel → Prop
  | init : Reach fs initKueFind
  | step_search (st : KueFindModel) (q : String) (n : Nat) :
      Reach fs st → Reach fs (searchStep fs st q n).2
  | step_complete (st : KueFindModel) :
      Reach fs st → Reach fs (completeStep st)
  | step_terminate (st : KueFindModel) (k : Nat) :
      Reach fs st → Reach fs (terminateStep st k)

/-- The state invariant: while a walk is in flight the served index is the
empty first-ever index, and the served file list and trigram dict are empty
together. -/
def GoodState (st : KueFindModel) : Prop :=
  (st.index_task ≠ none → st.files = [] ∧ st.filename_trigrams = []) ∧
    (st.files = [] ↔ st.filename_trigrams = [])

/-! ## Spatial gazetteer (`BBoxFinder`, `kue_find.py` lines 431-480) -/

/-- A bounding box `(minx, miny, maxx, maxy)` in lon/lat degrees. -/
structure BBox where
  minx : ℚ
  miny : ℚ
  maxx : ℚ
  maxy : ℚ
deriving DecidableEq

/-- The numpy containment mask of `find_containing_bbox` (lines 466-471). -/
def bboxContains (r q : BBox) : Bool :=
  decide (r.minx ≤ q.minx) && decide (r.miny ≤ q.miny) &&
    decide (q.maxx ≤ r.maxx) && decide (q.maxy ≤ r.maxy)

/-- Pre-computed area `(maxx - minx) * (maxy - miny)` (lines 457-459). -/
def bboxArea (b : BBox) : ℚ :=
  (b.maxx - b.minx) * (b.maxy - b.miny)

/-- The synthetic special box inserted at index 0 (lines 440-441). -/
def nullIsland : BBox := ⟨-3, -3, 3, 3⟩

/-- Modelled from the spec: the bundled `regions_and_countries.csv` dataset is
not part of `src/`; the constructor is therefore parameterized by the loaded
`(name, bbox)` rows and only the synthetic "Null Island" entry prepended by
`BBoxFinder.__init__` is concrete. -/
def mkGazetteer (rows : List (String × BBox)) : List (String × BBox) :=
  ("Null Island", nullIsland) :: rows

/-- First minimum (`np.argmin` returns the first occurrence of the minimum). -/
def argminFirst (fval : α → ℚ) : List α → Option α
  | [] => none
  | x :: xs =>
    match argminFirst fval xs with
    | none => some x
    | some y => if fval x ≤ fval y then some x else some y

/-- `BBoxFinder.find_containing_bbox` (lines 461-480): filter the entries whose
bbox contains the query, return "World" if none does, else the name of the
first entry of minimal area. -/
def find_containing_bbox (entries : List (String × BBox)) (q : BBox) : String :=
  let containing := entries.filter (fun e => bboxContains e.2 q)
  match argminFirst (fun e => bboxArea e.2) containing with
  | none => "World"
  | some e => e.1

/-! ## Streaming response decoder (`kue_task.py`, `KueTask.handle_ready_read`) -/

/-- JSON values as produced by Python's `json` module, with numbers kept as
their source lexeme (no numeric claim depends on their value). -/
inductive JValue where
  | jnull : JValue
  | jbool : Bool → JValue
  | jnum : String → JValue
  | jstr : String → JValue
  | jarr : List JValue → JValue
  | jobj : List (String × JValue) → JValue

/-- Left brace character. -/
def lbrace : Char := Char.ofNat 123

/-- Right brace character. -/
def rbrace : Char := Char.ofNat 125

/-- Double-quote character. -/
def dquote : Char := Char.ofNat 34

/-- Backslash character. -/
def bslash : Char := Char.ofNat 92

/-- JSON whitespace skipping. -/
def skipWs : List Char → List Char
  | [] => []
  | c :: rest =>
    if c = ' ' || c = '\t' || c = '\n' || c = '\r' then skipWs rest else c :: rest

/-- JSON string escapes (`\uXXXX` is not modelled; no claim exercises it). -/
def escChar (c : Char) : Option Char :=
  if c = dquote then some dquote
  else if c = bslash then some bslash
  else if c = '/' then some '/'
  else if c = 'n' then some '\n'
  else if c = 't' then some '\t'
  else if c = 'r' then some '\r'
  else if c = 'b' then some (Char.ofNat 8)
  else if c = 'f' then some (Char.ofNat 12)
  else none

/-- JSON string body parser (the opening quote is already consumed). -/
def parseJString : List Char → List Char → Option (String × List Char)
  | [], _ => none
  | c :: rest, acc =>
    if c = dquote then some (String.mk acc.reverse, rest)
    else if c = bslash then
      match rest with
      | [] => none
      | e :: rest2 =>
        match escChar e with
        | some ec => parseJString rest2 (ec :: acc)
        | none => none
    else parseJString rest (c :: acc)

/-- Does the pattern (first argument) start the list (second argument)? -/
def startsWith : List Char → List Char → Bool
  | [], _ => true
  | _ :: _, [] => false
  | p :: ps, c :: cs => p = c && startsWith ps cs

/-- JSON number lexer, returning the consumed lexeme.  (Python additionally
rejects redundant leading zeros; no claim depends on that.) -/
def parseNumber (l : List Char) : Option (String × List Char) :=
  let negAndRest : List Char × List Char :=
    match l with
    | c :: rest => if c = '-' then ([c], rest) else ([], l)
    | [] => ([], [])
  let neg := negAndRest.1
  let l1 := negAndRest.2
  let ds := l1.takeWhile Char.isDigit
  let r1 := l1.dropWhile Char.isDigit
  if ds = [] then none
  else
    let fracAndRest : List Char × List Char :=
      match r1 with
      | c :: rest =>
        if c = '.' then
          let fs := rest.takeWhile Char.isDigit
          if fs = [] then ([], r1) else (c :: fs, rest.dropWhile Char.isDigit)
        else ([], r1)
      | [] => ([], [])
    let frac := fracAndRest.1
    let r2 := fracAndRest.2
    let expAndRest : List Char × List Char :=
      match r2 with
      | c :: rest =>
        if c = 'e' || c = 'E' then
          let sgnAndRest : List Char × List Char :=
            match rest with
            | d :: rr => if d = '+' || d = '-' then ([d], rr) else ([], rest)
            | [] => ([], [])
          let es := sgnAndRest.2.takeWhile Char.isDigit
          if es = [] then ([], r2)
          else (c :: (sgnAndRest.1 ++ es), sgnAndRest.2.dropWhile Char.isDigit)
        else ([], r2)
      | [] => ([], [])
    some (String.mk (neg ++ ds ++ frac ++ expAndRest.1), expAndRest.2)

mutual

/-- JSON value parser, modelling `json.JSONDecoder().raw_decode` (which parses
one value starting at index 0, without skipping leading whitespace). -/
def parseValue : Nat → List Char → Option (JValue × List Char)
  | 0, _ => none
  | fuel + 1, l =>
    match l with
    | [] => none
    | c :: rest =>
      if c = dquote then
        (parseJString rest []).map (fun p => (JValue.jstr p.1, p.2))
      else if c = lbrace then
        match skipWs rest with
        | d :: r2 =>
          if d = rbrace then some (JValue.jobj [], r2)
          else parseMembers fuel (skipWs rest) []
        | [] => none
      else if c = '[' then
        match skipWs rest with
        | d :: r2 =>
          if d = ']' then some (JValue.jarr [], r2)
          else parseElems fuel (skipWs rest) []
        | [] => none
      else if startsWith "true".toList l then some (JValue.jbool true, l.drop 4)
      else if startsWith "false".toList l then some (JValue.jbool false, l.drop 5)
      else if startsWith "null".toList l then some (JValue.jnull, l.drop 4)
      else (parseNumber l).map (fun p => (JValue.jnum p.1, p.2))

/-- Object members parser (positioned at a key string; the empty object was
already handled). -/
def parseMembers : Nat → List Char → List (String × JValue) →
    Option (JValue × List Char)
  | 0, _, _ => none
  | fuel + 1, l, acc =>
    match l with
    | [] => none
    | c :: rest =>
      if c = dquote then
        match parseJString rest [] with
        | none => none
        | some (key, r1) =>
          match skipWs r1 with
          | ':' :: r2 =>
            match parseValue fuel (skipWs r2) with
            | none => none
            | some (v, r3) =>
              match skipWs r3 with
              | ',' :: r4 => parseMembers fuel (skipWs r4) (acc ++ [(key, v)])
              | d :: r4 =>
                if d = rbrace then some (JValue.jobj (acc ++ [(key, v)]), r4)
                else none
              | [] => none
          | _ => none
      else none

/-- Array elements parser (positioned at a value; the empty array was already
handled). -/
def parseElems : Nat → List Char → List JValue → Option (JValue × List Char)
  | 0, _, _ => none
  | fuel + 1, l, acc =>
    match parseValue fuel l with
    | none => none
    | some (v, r1) =>
      match skipWs r1 with
      | ',' :: r2 => parseElems fuel (skipWs r2) (acc ++ [v])
      | d :: r2 => if d = ']' then some (JValue.jarr (acc ++ [v]), r2) else none
      | [] => none

end

/-- `json.JSONDecoder().raw_decode(buffer)`: the parsed value and the number of
characters consumed, or `none` for `json.JSONDecodeError`. -/
def rawDecode (l : List Char) : Option (JValue × Nat) :=
  match parseValue (l.length + 1) l with
  | some (v, rest) => some (v, l.length - rest.length)
  | none => none

/-- First index at which the pattern occurs, i.e. Python `buffer.find(pat)`
(`-1` becomes `none`). -/
def findSub (pat : List Char) : List Char → Option Nat
  | [] => if pat = [] then some 0 else none
  | c :: rest =>
    if startsWith pat (c :: rest) then some 0
    else (findSub pat rest).map (· + 1)

/-- The events `handle_ready_read` emits: `streamingContentReceived` text and
`streamingActionReceived` parsed objects. -/
inductive Emit where
  | etext : String → Emit
  | eaction : JValue → Emit

/-- The marker `'{"actions":'` searched for at `kue_task.py` line 156. -/
def marker : List Char := lbrace :: "\"actions\":".toList

/-- The `while True` loop of `handle_ready_read` (`kue_task.py` lines 155-176):
find the marker; if absent, flush the whole buffer as text and stop; otherwise
emit any preceding text, try `raw_decode` on the remainder, and either stop
(keeping the buffer) on a decode error or emit the object and loop.  Fuel
bounds the iterations; `buffer length + 1` always suffices since each emitted
object consumes at least the marker. -/
def decodeLoop : Nat → List Char → List Emit × List Char
  | 0, buf => ([], buf)
  | fuel + 1, buf =>
    match findSub marker buf with
    | none => if buf.isEmpty then ([], buf) else ([Emit.etext (String.mk buf)], [])
    | some idx =>
      let pre := buf.take idx
      let rest := buf.drop idx
      let emits1 := if 0 < idx then [Emit.etext (String.mk pre)] else []
      match rawDecode rest with
      | none => (emits1, rest)
      | some (v, n) =>
        let tailRes := decodeLoop fuel (rest.drop n)
        (emits1 ++ Emit.eaction v :: tailRes.1, tailRes.2)

/-- One `readyRead` call: append the chunk to `self._read_buffer` and run the
loop.  Returns the emissions of this call and the new buffer. -/
def handle_ready_read (buffer chunk : String) : List Emit × String :=
  let buf := (buffer ++ chunk).toList
  let res := decodeLoop (buf.length + 1) buf
  (res.1, String.mk res.2)

/-- Feed a whole sequence of chunks through the decoder, starting from the
empty buffer of `KueTask.__init__`, and collect all emissions in order. -/
def processChunks (chunks : List String) : List Emit :=
  (chunks.foldl
    (fun acc ch =>
      let r := handle_ready_read acc.2 ch
      (acc.1 ++ r.1, r.2))
    (([] : List Emit), "")).1

/-! ## Concrete inputs used by individual claims -/

/-- An unreadable vector file (`ogr.Open` returns `None`). -/
def unreadableVectorSpec : FileSpec :=
  ⟨"/home/u/broken.shp", 0, 0, true, false, "Point", true, true,
    (0, 0, 0, 0), true, true, (0, 0, 0, 0), true⟩

/-- A readable vector point file whose extraction fully succeeds. -/
def pointVectorSpec : FileSpec :=
  ⟨"/home/u/pts.shp", 10, 20, true, true, "Point", true, true,
    (0, 2, 1, 3), true, true, (1, 2, 3, 4), true⟩

/-- A raster file that `gdal.Open` cannot read. -/
def c3SpecB : FileSpec :=
  ⟨"/home/u/b.tif", 5, 6, false, false, "", true, true,
    (0, 0, 0, 0), true, true, (0, 0, 0, 0), true⟩

/-- A second unreadable raster file. -/
def c3SpecC : FileSpec :=
  ⟨"/home/u/c.tif", 7, 8, false, false, "", true, true,
    (0, 0, 0, 0), true, true, (0, 0, 0, 0), true⟩

/-- The record `c3SpecB` produces. -/
def c3RecB : FileRecord :=
  ⟨"/home/u/b.tif", 5, 6, some "raster", none, none⟩

/-- A readable vector file under the user's home directory. -/
def roadsSpec : FileSpec :=
  ⟨"/home/u/roads.shp", 1, 2, true, true, "Line String", true, true,
    (0, 2, 1, 3), true, true, (1, 2, 3, 4), true⟩

/-- The record `roadsSpec` produces. -/
def roadsRec : FileRecord :=
  ⟨"/home/u/roads.shp", 1, 2, some "vector", some "Line String", some (1, 2, 3, 4)⟩

end Kue

namespace Kue

/-! ## Helper lemmas: trigram sets and scores -/

/-- The trigram set of any string is non-empty: short strings give the
singleton of the whole lower-cased string, longer ones have at least the
window at index 0. -/
theorem get_trigrams_nonempty (s : String) : (get_trigrams s).Nonempty := by
  unfold get_trigrams
  by_cases h : 2 < ((pyLower s).toList).length
  · rw [if_pos h]
    refine ⟨String.mk (((pyLower s).toList.drop 0).take 3), List.mem_toFinset.mpr ?_⟩
    exact List.mem_map.mpr ⟨0, List.mem_range.mpr (by omega), rfl⟩
  · rw [if_neg h]
    exact ⟨String.mk ((pyLower s).toList), Finset.mem_singleton_self _⟩

/-- The union of two trigram sets has positive cardinality. -/
theorem trigram_union_card_pos (a b : String) :
    0 < (get_trigrams a ∪ get_trigrams b).card :=
  Finset.card_pos.mpr ((get_trigrams_nonempty a).mono Finset.subset_union_left)

/-- With a positive union the guard in `score_filename` takes the division
branch. -/
theorem score_filename_eq (qT fT : Finset String) (h : 0 < (qT ∪ fT).card) :
    score_filename qT fT = -(((qT ∩ fT).card : ℚ) / ((qT ∪ fT).card : ℚ)) := by
  unfold score_filename
  rw [if_pos h]

/-- C1.  The claim asserts `similarity("", "") == 0.0`; in the code
`get_trigrams("")` is the singleton `{""}`, so the two trigram sets intersect
and the similarity is `1`, not `0`. -/
theorem c1_counterexample : similarity "" "" = 1 ∧ similarity "" "" ≠ 0 := by
  have h1 : get_trigrams "" = {""} := rfl
  have h2 : similarity "" "" = 1 := by
    unfold similarity score_filename
    rw [h1]
    simp
  exact ⟨h2, by rw [h2]; norm_num⟩

/-- C1 (amended).  For every pair of strings the similarity equals the Jaccard
index of the trigram sets and lies in `[0, 1]`; trigram sets are never empty,
so the empty-set convention is unreachable and `similarity("", "") = 1`. -/
theorem c1_theorem (a b : String) :
    similarity a b =
      ((get_trigrams a ∩ get_trigrams b).card : ℚ) /
        ((get_trigrams a ∪ get_trigrams b).card : ℚ)
    ∧ 0 ≤ similarity a b ∧ similarity a b ≤ 1 ∧ similarity "" "" = 1 := by
  have hu := trigram_union_card_pos a b
  have huq : (0 : ℚ) < ((get_trigrams a ∪ get_trigrams b).card : ℚ) := by
    exact_mod_cast hu
  have heq : similarity a b =
      ((get_trigrams a ∩ get_trigrams b).card : ℚ) /
        ((get_trigrams a ∪ get_trigrams b).card : ℚ) := by
    unfold similarity
    rw [score_filename_eq _ _ hu, neg_neg]
  have hone : similarity "" "" = 1 := by
    have h1 : get_trigrams "" = {""} := rfl
    unfold similarity score_filename
    rw [h1]
    simp
  refine ⟨heq, ?_, ?_, hone⟩
  · rw [heq]
    positivity
  · rw [heq, div_le_one huq]
    exact_mod_cast Finset.card_le_card Finset.inter_subset_union

/-- C10.  `get_trigrams` always returns a non-empty set (for strings of fewer
than 3 characters, the singleton of the whole lower-cased string, in
particular `{""}` for `""`), so the union in the score has size at least 1 and
the guarded division in `score_filename` is always the division branch. -/
theorem c10_theorem (a b : String) :
    (get_trigrams a).Nonempty
    ∧ (a.length < 3 → get_trigrams a = {pyLower a})
    ∧ get_trigrams "" = {""}
    ∧ 1 ≤ (get_trigrams a ∪ get_trigrams b).card
    ∧ score_filename (get_trigrams a) (get_trigrams b) =
        -(((get_trigrams a ∩ get_trigrams b).card : ℚ) /
          ((get_trigrams a ∪ get_trigrams b).card : ℚ)) := by
  refine ⟨get_trigrams_nonempty a, ?_, rfl, trigram_union_card_pos a b,
    score_filename_eq _ _ (trigram_union_card_pos a b)⟩
  intro hshort
  have hlen : ((pyLower a).toList).length = a.length := by
    show (a.toList.map Char.toLower).length = a.length
    rw [List.length_map]
    rfl
  unfold get_trigrams
  rw [if_neg (by omega)]
  rfl

/-- C10 witness at concrete inputs. -/
theorem c10_witness :
    (get_trigrams "ab").Nonempty ∧ get_trigrams "ab" = {pyLower "ab"}
    ∧ 1 ≤ (get_trigrams "ab" ∪ get_trigrams "xyz").card := by
  obtain ⟨h1, h2, _, h4, _⟩ := c10_theorem "ab" "xyz"
  exact ⟨h1, h2 (by decide), h4⟩

end Kue

namespace Kue

/-- C2.  Evaluating the decoder on the spec's own chunk split
`("hello ", '\x7b"actio', 'ns":[]\x7d world')`: because the marker
`'\x7b"actions":'` is not fully present in the buffer when chunk 2 arrives,
the partial marker is flushed as plain text and the action object is never
emitted; the same stream fed as a single chunk does produce
text, object, text in order. -/
theorem c2_theorem :
    processChunks ["hello ", "\x7b\"actio", "ns\":[]\x7d world"] =
      [Emit.etext "hello ", Emit.etext "\x7b\"actio", Emit.etext "ns\":[]\x7d world"]
    ∧ processChunks ["hello \x7b\"actions\":[]\x7d world"] =
      [Emit.etext "hello ",
        Emit.eaction (JValue.jobj [("actions", JValue.jarr [])]),
        Emit.etext " world"] := by
  exact ⟨rfl, rfl⟩

/-- C3.  Evaluating the index state machine at the failing input: a fresh
`KueFind` whose first search starts a walk over two files, cancelled after the
first file.  `taskTerminated` invokes `task_completed` with its default
`exception=None`, so the partial file list is published: the served index
becomes `[c3RecB]` although it was empty before the walk. -/
theorem c3_theorem :
    (searchStep [c3SpecB, c3SpecC] initKueFind "q" 12).2.files = []
    ∧ (terminateStep (searchStep [c3SpecB, c3SpecC] initKueFind "q" 12).2 1).files
        = [c3RecB]
    ∧ ([c3RecB] : List FileRecord) ≠ [] := by
  refine ⟨rfl, rfl, by simp⟩

end Kue

namespace Kue

/-- Every reachable `KueFind` state satisfies the invariant: a walk can only be
in flight while the served index is still the empty first-ever index (searches
start a walk only when the trigram dict is empty, and the published record
list and trigram dict are always empty together). -/
theorem reach_good {fs : List FileSpec} {st : KueFindModel} (h : Reach fs st) :
    GoodState st := by
  induction h with
  | init => exact ⟨fun hne => absurd rfl hne, iff_of_true rfl rfl⟩
  | step_search st q n hr ih =>
    obtain ⟨files, tri, task⟩ := st
    match tri, task with
    | [], none =>
      obtain ⟨ih1, ih2⟩ := ih
      have hfiles : files = [] := ih2.mpr rfl
      subst hfiles
      exact ⟨fun _ => ⟨rfl, rfl⟩, iff_of_true rfl rfl⟩
    | t :: ts, task => exact ih
    | [], some tk => exact ih
  | step_complete st hr ih =>
    obtain ⟨files, tri, task⟩ := st
    match task with
    | none => exact ih
    | some t =>
      refine ⟨fun hne => absurd ?_ hne, ?_⟩
      · show (none : Option IndexTaskModel) = none
        rfl
      · show (processFiles t.toProcess).map Prod.fst = [] ↔
          (processFiles t.toProcess).map Prod.snd = []
        simp
  | step_terminate st k hr ih =>
    obtain ⟨files, tri, task⟩ := st
    match task with
    | none => exact ih
    | some t =>
      refine ⟨fun hne => absurd ?_ hne, ?_⟩
      · show (none : Option IndexTaskModel) = none
        rfl
      · show (processFiles (t.toProcess.take k)).map Prod.fst = [] ↔
          (processFiles (t.toProcess.take k)).map Prod.snd = []
        simp

/-- C4.  A search made while an indexing task is in flight returns the empty
result list and leaves the same task in place (no second `IndexingTask` is
created or started). -/
theorem c4_theorem (fs : List FileSpec) (st : KueFindModel) (h : Reach fs st)
    (t : IndexTaskModel) (ht : st.index_task = some t) (q : String) (n : Nat) :
    (searchStep fs st q n).1 = [] ∧ (searchStep fs st q n).2.index_task = some t := by
  obtain ⟨hinv, _⟩ := reach_good h
  obtain ⟨hfiles, htri⟩ := hinv (by rw [ht]; simp)
  obtain ⟨files, tri, task⟩ := st
  have hfiles2 : files = [] := hfiles
  have htri2 : tri = [] := htri
  have htask2 : task = some t := ht
  subst hfiles2 htri2 htask2
  constructor
  · show rank ⟨[], [], some t⟩ q n = []
    simp [rank, pySorted]
  · rfl

/-- C4 witness: the first-ever search starts a walk; a second search while it
is in flight yields no results and does not replace the task. -/
theorem c4_witness :
    (searchStep [] (searchStep [] initKueFind "a" 12).2 "b" 12).1 = []
    ∧ (searchStep [] (searchStep [] initKueFind "a" 12).2 "b" 12).2.index_task
        = some ⟨[]⟩ :=
  c4_theorem [] _ (Reach.step_search initKueFind "a" 12 Reach.init) ⟨[]⟩ rfl "b" 12

end Kue

namespace Kue

/-- C5.  The claim says a file whose metadata extraction fails is still
appended with `bbox=None`; but an unreadable vector file (`ogr.Open` returns
`None`) hits the `continue` at `kue_find.py` line 196 and is omitted from the
index entirely. -/
theorem c5_counterexample :
    processFile unreadableVectorSpec = none
    ∧ processFiles [unreadableVectorSpec] = [] :=
  ⟨rfl, rfl⟩

/-- C5 (amended).  No extraction failure aborts the walk, but the failure
modes differ: a vector file whose metadata read raises, or whose reprojection
raises, is kept with `bbox=None`; an unreadable vector file, and a vector file
with a valid CRS but no available coordinate transform, are omitted entirely;
a vector file with an invalid/missing CRS is kept with its raw untransformed
extent; an unreadable raster is kept with `bbox=None`. -/
theorem c5_theorem (p : String) (a m : Int) (g : String)
    (e tr : ℚ × ℚ × ℚ × ℚ) (b1 b2 b3 b4 b5 : Bool) (rest : List FileSpec) :
    processFiles (⟨p, a, m, true, false, g, b1, b2, e, b3, b4, tr, b5⟩ :: rest)
        = processFiles rest
    ∧ processFiles (⟨p, a, m, true, true, g, false, b2, e, b3, b4, tr, b5⟩ :: rest)
        = (⟨p, a, m, some "vector", some g, none⟩, (p, get_trigrams p))
            :: processFiles rest
    ∧ processFiles (⟨p, a, m, true, true, g, true, false, e, b3, b4, tr, b5⟩ :: rest)
        = (⟨p, a, m, some "vector", some g, some e⟩, (p, get_trigrams p))
            :: processFiles rest
    ∧ processFiles (⟨p, a, m, true, true, g, true, true, e, false, b4, tr, b5⟩ :: rest)
        = processFiles rest
    ∧ processFiles (⟨p, a, m, true, true, g, true, true, e, true, false, tr, b5⟩ :: rest)
        = (⟨p, a, m, some "vector", some g, none⟩, (p, get_trigrams p))
            :: processFiles rest
    ∧ processFiles (⟨p, a, m, false, false, g, b1, b2, e, b3, b4, tr, b5⟩ :: rest)
        = (⟨p, a, m, some "raster", none, none⟩, (p, get_trigrams p))
            :: processFiles rest :=
  ⟨rfl, rfl, rfl, rfl, rfl, rfl⟩

/-- C9.  Indexing the same successfully-extracted point vector file twice with
a warm cache: the second run does not invoke the extractor, but its cache-hit
record carries `geometry_type = "point"` while the first run produced
`"Point"` — the encode map (lines 334-342) and the decode map (lines 174-178)
of `kue_find.py` are not mutual inverses, so the second run's `FileRecord` set
differs from the first run's. -/
theorem c9_theorem :
    processFile pointVectorSpec =
      some ⟨"/home/u/pts.shp", 10, 20, some "vector", some "Point", some (1, 2, 3, 4)⟩
    ∧ cacheWriteOf pointVectorSpec =
      some ("/home/u/pts.shp", ⟨(1, 2, 3, 4), some 2⟩)
    ∧ processFileCached [("/home/u/pts.shp", ⟨(1, 2, 3, 4), some 2⟩)] pointVectorSpec
        = (some ⟨"/home/u/pts.shp", 10, 20, some "vector", some "point",
            some (1, 2, 3, 4)⟩, false)
    ∧ (⟨"/home/u/pts.shp", 10, 20, some "vector", some "point", some (1, 2, 3, 4)⟩
          : FileRecord)
        ≠ ⟨"/home/u/pts.shp", 10, 20, some "vector", some "Point", some (1, 2, 3, 4)⟩ := by
  refine ⟨rfl, rfl, rfl, fun h => ?_⟩
  exact absurd (congrArg FileRecord.geometry_type h) (by simp)

/-- Every record appended by the walk has `path = full_path`. -/
theorem processFile_path {f : FileSpec} {r : FileRecord}
    (h : processFile f = some r) : r.path = f.path := by
  unfold processFile processVectorFile processRasterFile at h
  split_ifs at h <;>
    first
      | exact Option.noConfusion h
      | (rw [Option.some.injEq] at h; subst h; rfl)

/-- Every trigram-dict entry produced by the walk binds the full path to the
trigrams of the full path. -/
theorem processFiles_snd (specs : List FileSpec)
    (pr : FileRecord × (String × Finset String)) (hpr : pr ∈ processFiles specs) :
    pr.2 = (pr.1.path, get_trigrams pr.1.path) := by
  induction specs with
  | nil => simp [processFiles] at hpr
  | cons f rest ih =>
    rw [processFiles] at hpr
    cases hpf : processFile f with
    | none =>
      rw [hpf] at hpr
      exact ih hpr
    | some r =>
      rw [hpf] at hpr
      rcases List.mem_cons.mp hpr with hhead | htail
      · subst hhead
        simp [processFile_path hpf]
      · exact ih htail

/-- Looking a walked path up in the published trigram dict yields the trigrams
of that (full) path. -/
theorem lookupTri_processFiles (specs : List FileSpec) (p : String)
    (hp : ∃ pr ∈ processFiles specs, pr.2.1 = p) :
    lookupTri ((processFiles specs).map Prod.snd) p = get_trigrams p := by
  induction specs with
  | nil => simp [processFiles] at hp
  | cons f rest ih =>
    cases hpf : processFile f with
    | none =>
      rw [processFiles, hpf] at hp ⊢
      exact ih hp
    | some r =>
      rw [processFiles, hpf] at hp ⊢
      rw [List.map_cons, lookupTri]
      by_cases hfp : f.path = p
      · rw [if_pos hfp, hfp]
      · rw [if_neg hfp]
        rcases hp with ⟨pr, hmem, hval⟩
        rcases List.mem_cons.mp hmem with hhead | htail
        · exact absurd (by rw [← hval, hhead]) hfp
        · exact ih ⟨pr, htail, hval⟩

/-- C7 (amended).  The search ranking scores the query trigram set against the
trigram set of the file's full path (the walk stores
`get_trigrams(full_path)`, not the basename's trigrams), and the sort key used
for each indexed record is exactly that score. -/
theorem c7_theorem (specs : List FileSpec)
    (pr : FileRecord × (String × Finset String)) (hpr : pr ∈ processFiles specs)
    (q : String) :
    pr.2 = (pr.1.path, get_trigrams pr.1.path)
    ∧ rankKey ((processFiles specs).map Prod.snd) q pr.1
        = score_filename (queryTrigrams q) (get_trigrams pr.1.path) := by
  have h2 := processFiles_snd specs pr hpr
  refine ⟨h2, ?_⟩
  unfold rankKey
  rw [lookupTri_processFiles specs pr.1.path ⟨pr, hpr, by rw [h2]⟩]

/-- C7 witness at a concrete walk. -/
theorem c7_witness :
    rankKey ((processFiles [roadsSpec]).map Prod.snd) "home" roadsRec
      = score_filename (queryTrigrams "home") (get_trigrams roadsRec.path) :=
  (c7_theorem [roadsSpec]
    (roadsRec, ("/home/u/roads.shp", get_trigrams "/home/u/roads.shp"))
    (by rw [show processFiles [roadsSpec]
          = [(roadsRec, ("/home/u/roads.shp", get_trigrams "/home/u/roads.shp"))]
        from rfl]
        exact List.mem_singleton.mpr rfl) "home").2

/-- C7.  The claim says scoring is against the basename's trigrams; on the
concrete file `/home/u/roads.shp` the stored trigram set is that of the full
path, which differs from the basename's, and the resulting score for the query
"home" differs as well (the path matches the query, the basename does not). -/
theorem c7_counterexample :
    processFiles [roadsSpec]
      = [(roadsRec, ("/home/u/roads.shp", get_trigrams "/home/u/roads.shp"))]
    ∧ get_trigrams "/home/u/roads.shp" ≠ get_trigrams "roads.shp"
    ∧ score_filename (queryTrigrams "home") (get_trigrams "/home/u/roads.shp")
        ≠ score_filename (queryTrigrams "home") (get_trigrams "roads.shp") := by
  refine ⟨rfl, ?_, ?_⟩
  · intro h
    have hmem : "/ho" ∈ get_trigrams "/home/u/roads.shp" := by decide
    have hnot : "/ho" ∉ get_trigrams "roads.shp" := by decide
    exact hnot (h ▸ hmem)
  · have hi1 : (queryTrigrams "home" ∩ get_trigrams "/home/u/roads.shp").card = 2 := by
      decide
    have hu1 : (queryTrigrams "home" ∪ get_trigrams "/home/u/roads.shp").card = 15 := by
      decide
    have hi2 : (queryTrigrams "home" ∩ get_trigrams "roads.shp").card = 0 := by decide
    have hu2 : (queryTrigrams "home" ∪ get_trigrams "roads.shp").card = 9 := by decide
    rw [score_filename_eq _ _ (by rw [hu1]; norm_num),
      score_filename_eq _ _ (by rw [hu2]; norm_num), hi1, hu1, hi2, hu2]
    norm_num

end Kue

namespace Kue

/-- `argminFirst` returns `none` exactly on the empty list. -/
theorem argminFirst_eq_none (fval : α → ℚ) (l : List α) :
    argminFirst fval l = none ↔ l = [] := by
  cases l with
  | nil => simp [argminFirst]
  | cons x xs =>
    simp only [argminFirst]
    cases argminFirst fval xs with
    | none => simp
    | some y => by_cases h : fval x ≤ fval y <;> simp [h]

/-- A result of `argminFirst` is a member of minimal value. -/
theorem argminFirst_mem {fval : α → ℚ} {l : List α} {x : α}
    (h : argminFirst fval l = some x) : x ∈ l ∧ ∀ y ∈ l, fval x ≤ fval y := by
  induction l generalizing x with
  | nil => cases h
  | cons a rest ih =>
    simp only [argminFirst] at h
    cases hrest : argminFirst fval rest with
    | none =>
      rw [hrest] at h
      have hx : a = x := Option.some.inj h
      subst hx
      have hnil : rest = [] := (argminFirst_eq_none fval rest).mp hrest
      subst hnil
      exact ⟨List.mem_singleton.mpr rfl, by intro y hy; rw [List.mem_singleton.mp hy]⟩
    | some y =>
      rw [hrest] at h
      obtain ⟨hymem, hymin⟩ := ih hrest
      have h2 : (if fval a ≤ fval y then some a else some y) = some x := h
      by_cases hax : fval a ≤ fval y
      · rw [if_pos hax] at h2
        have hx : a = x := Option.some.inj h2
        subst hx
        refine ⟨List.mem_cons_self _ _, ?_⟩
        intro z hz
        rcases List.mem_cons.mp hz with rfl | hz2
        · exact le_refl _
        · exact hax.trans (hymin z hz2)
      · rw [if_neg hax] at h2
        have hx : y = x := Option.some.inj h2
        subst hx
        refine ⟨List.mem_cons_of_mem _ hymem, ?_⟩
        intro z hz
        rcases List.mem_cons.mp hz with rfl | hz2
        · exact (not_le.mp hax).le
        · exact hymin z hz2

/-- When the head already has minimal value, `argminFirst` returns the head
(ties go to the earliest occurrence, matching `np.argmin`). -/
theorem argminFirst_head {fval : α → ℚ} {a : α} {rest : List α}
    (h : ∀ y ∈ rest, fval a ≤ fval y) : argminFirst fval (a :: rest) = some a := by
  simp only [argminFirst]
  cases hrest : argminFirst fval rest with
  | none => rfl
  | some y =>
    show (if fval a ≤ fval y then some a else some y) = some a
    rw [if_pos (h y (argminFirst_mem hrest).1)]

/-- C6.  `find_containing_bbox` returns the name of a containing reference
region of minimal area (first such region on ties, and "Null Island" sits at
index 0), and "World" exactly when no region contains the query.  With the
bundled region rows abstract (the CSV is not part of the sources), the two
spec queries are settled under the corresponding hypotheses about the loaded
rows: no loaded region smaller than Null Island contains `(-1,-1,1,1)`, and no
loaded region contains `(-200,-100,200,100)`. -/
theorem c6_theorem (rows : List (String × BBox)) :
    (∀ q : BBox,
      (find_containing_bbox (mkGazetteer rows) q = "World"
        ∧ ∀ e ∈ mkGazetteer rows, bboxContains e.2 q = false)
      ∨ (∃ e ∈ mkGazetteer rows, bboxContains e.2 q = true
          ∧ find_containing_bbox (mkGazetteer rows) q = e.1
          ∧ ∀ e2 ∈ mkGazetteer rows, bboxContains e2.2 q = true →
              bboxArea e.2 ≤ bboxArea e2.2))
    ∧ ((∀ r ∈ rows, bboxContains r.2 ⟨-1, -1, 1, 1⟩ = true → 36 ≤ bboxArea r.2) →
        find_containing_bbox (mkGazetteer rows) ⟨-1, -1, 1, 1⟩ = "Null Island")
    ∧ ((∀ r ∈ rows, bboxContains r.2 ⟨-200, -100, 200, 100⟩ = false) →
        find_containing_bbox (mkGazetteer rows) ⟨-200, -100, 200, 100⟩ = "World") := by
  have hdef : ∀ (entries : List (String × BBox)) (q : BBox),
      find_containing_bbox entries q =
        match argminFirst (fun e => bboxArea e.2)
            (entries.filter (fun e => bboxContains e.2 q)) with
        | none => "World"
        | some e => e.1 := fun entries q => rfl
  refine ⟨?_, ?_, ?_⟩
  · intro q
    cases hmin : argminFirst (fun e => bboxArea e.2)
        ((mkGazetteer rows).filter (fun e => bboxContains e.2 q)) with
    | none =>
      left
      have hnil := (argminFirst_eq_none _ _).mp hmin
      refine ⟨by rw [hdef, hmin], ?_⟩
      intro e he
      have := List.filter_eq_nil_iff.mp hnil e he
      simpa using this
    | some e =>
      right
      obtain ⟨hmem, hminval⟩ := argminFirst_mem hmin
      obtain ⟨hent, hcont⟩ := List.mem_filter.mp hmem
      refine ⟨e, hent, hcont, by rw [hdef, hmin], ?_⟩
      intro e2 he2 hc2
      exact hminval e2 (List.mem_filter.mpr ⟨he2, hc2⟩)
  · intro hyp
    have hhead : bboxContains nullIsland ⟨-1, -1, 1, 1⟩ = true := by decide
    have hfilter : (mkGazetteer rows).filter (fun e => bboxContains e.2 ⟨-1, -1, 1, 1⟩)
        = ("Null Island", nullIsland)
            :: rows.filter (fun e => bboxContains e.2 ⟨-1, -1, 1, 1⟩) := by
      rw [mkGazetteer, List.filter_cons]
      simp [hhead]
    have hmin : argminFirst (fun e => bboxArea e.2)
        ((mkGazetteer rows).filter (fun e => bboxContains e.2 ⟨-1, -1, 1, 1⟩))
        = some ("Null Island", nullIsland) := by
      rw [hfilter]
      refine argminFirst_head ?_
      intro y hy
      obtain ⟨hyrows, hycont⟩ := List.mem_filter.mp hy
      have h36 : bboxArea ("Null Island", nullIsland).2 = 36 := by
        norm_num [bboxArea, nullIsland]
      rw [h36]
      exact hyp y hyrows hycont
    rw [hdef, hmin]
  · intro hyp
    have hhead : bboxContains nullIsland ⟨-200, -100, 200, 100⟩ = false := by decide
    have hfilter : (mkGazetteer rows).filter
        (fun e => bboxContains e.2 ⟨-200, -100, 200, 100⟩) = [] := by
      rw [mkGazetteer, List.filter_cons]
      simp only [hhead, Bool.false_eq_true, if_false, List.filter_eq_nil_iff]
      intro e he
      simp [hyp e he]
    have hmin : argminFirst (fun e => bboxArea e.2)
        ((mkGazetteer rows).filter (fun e => bboxContains e.2 ⟨-200, -100, 200, 100⟩))
        = none := by
      rw [hfilter]
      rfl
    rw [hdef, hmin]

/-- C6 witness with no loaded rows (both hypotheses hold vacuously). -/
theorem c6_witness :
    find_containing_bbox (mkGazetteer []) ⟨-1, -1, 1, 1⟩ = "Null Island"
    ∧ find_containing_bbox (mkGazetteer []) ⟨-200, -100, 200, 100⟩ = "World" := by
  obtain ⟨_, h2, h3⟩ := c6_theorem []
  exact ⟨h2 (by simp), h3 (by simp)⟩

end Kue

namespace Kue

/-- Inserting into a list produces a permutation of consing. -/
theorem pyInsert_perm (key : α → ℚ) (x : α) (l : List α) :
    (pyInsert key x l).Perm (x :: l) := by
  induction l with
  | nil => exact List.Perm.refl _
  | cons y ys ih =>
    by_cases h : key y ≤ key x
    · rw [pyInsert, if_pos h]
      exact (ih.cons y).trans (List.Perm.swap x y ys)
    · rw [pyInsert, if_neg h]

/-- Insertion preserves sortedness by the key. -/
theorem pyInsert_sorted (key : α → ℚ) (x : α) (l : List α)
    (hl : l.Pairwise (fun a b => key a ≤ key b)) :
    (pyInsert key x l).Pairwise (fun a b => key a ≤ key b) := by
  induction l with
  | nil => simp [pyInsert]
  | cons y ys ih =>
    obtain ⟨hy, hys⟩ := List.pairwise_cons.mp hl
    by_cases h : key y ≤ key x
    · rw [pyInsert, if_pos h]
      refine List.pairwise_cons.mpr ⟨?_, ih hys⟩
      intro z hz
      rcases List.mem_cons.mp ((pyInsert_perm key x ys).mem_iff.mp hz) with rfl | hz2
      · exact h
      · exact hy z hz2
    · rw [pyInsert, if_neg h]
      have hx : key x ≤ key y := (not_le.mp h).le
      refine List.pairwise_cons.mpr ⟨?_, hl⟩
      intro z hz
      rcases List.mem_cons.mp hz with rfl | hz2
      · exact hx
      · exact hx.trans (hy z hz2)

/-- The insertion fold permutes its input. -/
theorem pySortedAux_perm (key : α → ℚ) (l acc : List α) :
    (l.foldl (fun acc x => pyInsert key x acc) acc).Perm (acc ++ l) := by
  induction l generalizing acc with
  | nil => simp
  | cons x xs ih =>
    rw [List.foldl_cons]
    refine (ih (pyInsert key x acc)).trans ?_
    refine (List.Perm.append_right xs (pyInsert_perm key x acc)).trans ?_
    exact List.perm_middle.symm

/-- `pySorted` permutes its input. -/
theorem pySorted_perm (key : α → ℚ) (l : List α) : (pySorted key l).Perm l := by
  simpa using pySortedAux_perm key l []

/-- The insertion fold keeps the accumulator sorted. -/
theorem pySortedAux_sorted (key : α → ℚ) (l : List α) :
    ∀ acc : List α, acc.Pairwise (fun a b => key a ≤ key b) →
      (l.foldl (fun acc x => pyInsert key x acc) acc).Pairwise
        (fun a b => key a ≤ key b) := by
  induction l with
  | nil => intro acc hacc; simpa using hacc
  | cons x xs ih =>
    intro acc hacc
    rw [List.foldl_cons]
    exact ih _ (pyInsert_sorted key x acc hacc)

/-- `pySorted` is sorted (ascending in the key). -/
theorem pySorted_sorted (key : α → ℚ) (l : List α) :
    (pySorted key l).Pairwise (fun a b => key a ≤ key b) :=
  pySortedAux_sorted key l [] (by simp)

/-- Inserting into a sorted list appends the new element behind all existing
elements of its key class and leaves every other key class unchanged. -/
theorem pyInsert_filter (key : α → ℚ) (x : α) (l : List α) (c : ℚ)
    (hl : l.Pairwise (fun a b => key a ≤ key b)) :
    (pyInsert key x l).filter (fun z => decide (key z = c))
      = l.filter (fun z => decide (key z = c))
        ++ if key x = c then [x] else [] := by
  induction l with
  | nil =>
    by_cases h : key x = c <;> simp [pyInsert, List.filter_cons, h]
  | cons y ys ih =>
    obtain ⟨hy, hys⟩ := List.pairwise_cons.mp hl
    by_cases h : key y ≤ key x
    · rw [pyInsert, if_pos h]
      rw [List.filter_cons, List.filter_cons, ih hys]
      by_cases hpy : key y = c <;> simp [hpy]
    · rw [pyInsert, if_neg h]
      have hx : key x < key y := not_le.mp h
      by_cases hxc : key x = c
      · have hnil : (y :: ys).filter (fun z => decide (key z = c)) = [] := by
          rw [List.filter_eq_nil_iff]
          intro z hz
          rcases List.mem_cons.mp hz with rfl | hz2
          · simp
            exact (hxc ▸ hx).ne' 
          · simp
            exact (lt_of_lt_of_le (hxc ▸ hx) (hy z hz2)).ne'
        rw [List.filter_cons, hnil]
        simp [hxc]
      · rw [List.filter_cons]
        simp [hxc]

/-- The insertion fold moves the filter of every key class through unchanged. -/
theorem pySortedAux_filter (key : α → ℚ) (c : ℚ) (l : List α) :
    ∀ acc : List α, acc.Pairwise (fun a b => key a ≤ key b) →
      (l.foldl (fun acc x => pyInsert key x acc) acc).filter
          (fun z => decide (key z = c))
        = acc.filter (fun z => decide (key z = c))
          ++ l.filter (fun z => decide (key z = c)) := by
  induction l with
  | nil => intro acc hacc; simp
  | cons x xs ih =>
    intro acc hacc
    rw [List.foldl_cons, ih _ (pyInsert_sorted key x acc hacc),
      pyInsert_filter key x acc c hacc, List.filter_cons]
    by_cases h : key x = c <;> simp [h]

/-- Stability of `pySorted`: each key class appears in its original order. -/
theorem pySorted_filter (key : α → ℚ) (l : List α) (c : ℚ) :
    (pySorted key l).filter (fun z => decide (key z = c))
      = l.filter (fun z => decide (key z = c)) := by
  simpa using pySortedAux_filter key c l [] (by simp)

/-- C8.  `search` returns the indexed files sorted by similarity score
descending, with a stable sort (files of equal score keep their index order:
filtering the sorted list to any one score class reproduces the index order),
truncated to the first `n` results; the default result count is 12. -/
theorem c8_theorem (q : String) (st : KueFindModel) (n : Nat) (fs : List FileSpec) :
    rank st q n = (pySorted (rankKey st.filename_trigrams q) st.files).take n
    ∧ (pySorted (rankKey st.filename_trigrams q) st.files).Perm st.files
    ∧ (pySorted (rankKey st.filename_trigrams q) st.files).Pairwise
        (fun a b => simScore st.filename_trigrams q b ≤ simScore st.filename_trigrams q a)
    ∧ (∀ c : ℚ, (pySorted (rankKey st.filename_trigrams q) st.files).filter
          (fun f => decide (rankKey st.filename_trigrams q f = c))
        = st.files.filter (fun f => decide (rankKey st.filename_trigrams q f = c)))
    ∧ searchStep fs st q = searchStep fs st q 12 := by
  refine ⟨rfl, pySorted_perm _ _, ?_,
    fun c => pySorted_filter (rankKey st.filename_trigrams q) st.files c, rfl⟩
  refine (pySorted_sorted (rankKey st.filename_trigrams q) st.files).imp ?_
  intro a b hab
  exact neg_le_neg hab

end Kue
